import Mathlib

/-!
Verification of the osome-bluesky-streamer ingestion engine against its
natural-language specification.  The Python sources are shallowly embedded:
pure computations become Lean functions, the stateful message handlers become
explicit effect traces over state types, and library calls whose results the
code only branches on (HTTP responses, json.loads) are abstracted as
parameters or small inductive outcome types.
-/

/-! ## Backoff controller (src/backfill/get_plc_history.py)

PLCDataExporter.__init__ sets base_delay = 5 and max_delay = 300.
PLCDataExporter._calculate_backoff computes
  base = self.base_delay * (2 ** attempt)
  delay = min(base, self.max_delay)
  jitter = random.uniform(0.5, 1.5)
  return int(delay * jitter)
The jitter draw is modelled as an explicit rational argument; Python int()
truncates toward zero, which on the non-negative products that arise here is
the floor. -/

def base_delay : ℚ := 5

def max_delay : ℚ := 300

def calculate_backoff (attempt : ℕ) (jitter : ℚ) : ℤ :=
  Int.floor (min (base_delay * 2 ^ attempt) max_delay * jitter)

/-! How PLCDataExporter.fetch_all updates the attempt counter after one
request/response exchange (lines 81-122): a requests.RequestException
increments it, HTTP 200 resets it to 0, HTTP 429 leaves it unchanged (that
branch sleeps for the Retry-After hint instead of a backoff delay), and any
other HTTP status increments it. -/

inductive FetchOutcome
  | netError
  | ok
  | rateLimited
  | httpError
deriving DecidableEq

def attempt_step : FetchOutcome → ℕ → ℕ
  | .netError, a => a + 1
  | .ok, _ => 0
  | .rateLimited, a => a
  | .httpError, a => a + 1

/-- The delay before jitter is applied: min(base_delay * 2 ^ attempt,
max_delay), on naturals (both configuration values are integral). -/
def unjittered_delay (attempt : ℕ) : ℕ :=
  min (5 * 2 ^ attempt) 300

/-! ## Rate-limit waits

src/backfill/get_plc_history.py lines 113-116 (and the identical branch in
src/moderation/get_plc_data.py lines 82-85):
  retry_after = int(response.headers.get('Retry-After', 30))
  time.sleep(retry_after)
The header, when present, is used as parsed, with no clamping.

src/backfill/get_user_records.py wait_until_reset (lines 100-106) sleeps
(reset_time - now).total_seconds() only when that difference is positive, so
the effective wait there is clamped at zero. -/

def retry_after_wait (header : Option ℤ) : ℤ :=
  header.getD 30

def wait_until_reset (reset_time now : ℤ) : ℤ :=
  if 0 < reset_time - now then reset_time - now else 0

/-! ## Firehose streamer checkpoint discipline (src/firehose_streamer.py)

on_message_handler (lines 111-134) processes one commit.  When
commit.seq % 20 == 0 it first updates the in-memory last_seq variable and,
when that variable was already set, immediately overwrites the last_seq
checkpoint file (a plain open-and-write, lines 131-132); only afterwards does
it call _get_ops_by_type, which appends the commit's records to the daily
JSON log (lines 89-90).  The state and the individual externally-visible
effects of one handler invocation are modelled below; a commit is abstracted
to its sequence number together with the number of records its ops produce. -/

structure FirehoseState where
  checkpointFile : Option ℕ
  log : List ℕ
  lastSeqVar : Option ℕ
deriving DecidableEq

inductive FhEffect
  | writeCheckpoint (n : ℕ)
  | appendRecord (n : ℕ)
  | setVar (n : ℕ)
deriving DecidableEq

def fh_apply : FirehoseState → FhEffect → FirehoseState
  | st, .writeCheckpoint n => { st with checkpointFile := some n }
  | st, .appendRecord n => { st with log := st.log ++ [n] }
  | st, .setVar n => { st with lastSeqVar := some n }

/-- Effects of on_message_handler on a commit with sequence s whose ops yield
k appended records, given the current in-memory last_seq variable.  The
checkpoint-file write precedes every record append of the same commit. -/
def on_message_effects (s k : ℕ) (lastSeqVar : Option ℕ) : List FhEffect :=
  (if s % 20 = 0 then
    match lastSeqVar with
    | none => [.setVar s]
    | some m => [.setVar (max s m), .writeCheckpoint (max s m)]
  else []) ++ List.replicate k (.appendRecord s)

def fh_run_effects (st : FirehoseState) : List FhEffect → List FirehoseState
  | [] => []
  | e :: es =>
    let st2 := fh_apply st e
    st2 :: fh_run_effects st2 es

def fh_final (st : FirehoseState) (es : List FhEffect) : FirehoseState :=
  es.foldl fh_apply st

/-- Every state reached while processing a list of (seq, record count)
commits, one effect at a time. -/
def fh_run_messages (st : FirehoseState) : List (ℕ × ℕ) → List FirehoseState
  | [] => []
  | (s, k) :: ms =>
    let effs := on_message_effects s k st.lastSeqVar
    fh_run_effects st effs ++ fh_run_messages (fh_final st effs) ms

def fh_init : FirehoseState := ⟨none, [], none⟩

/-- The claimed invariant: the persisted checkpoint never exceeds the
sequence number of the last record actually present in the log. -/
def checkpoint_leq_log_tail (st : FirehoseState) : Bool :=
  match st.checkpointFile with
  | none => true
  | some c =>
    match st.log.getLast? with
    | none => false
    | some l => c ≤ l

/-! ## PLC exporter checkpoint discipline (src/backfill/get_plc_history.py)

PLCDataExporter.fetch_all, 200 branch (lines 90-111): the response lines are
appended to the data file and flushed line by line, then the last line is
parsed and, when it carries a non-empty createdAt, that value is written to
the timestamp file (_save_last_timestamp, a plain overwrite).  A record is
abstracted to its createdAt value: some t when the line parses and carries a
non-empty createdAt, none otherwise. -/

structure PlcState where
  timestampFile : Option ℕ
  dataFile : List (Option ℕ)
deriving DecidableEq

inductive PlcEffect
  | appendLine (t : Option ℕ)
  | writeTimestamp (t : ℕ)
deriving DecidableEq

def plc_apply : PlcState → PlcEffect → PlcState
  | st, .appendLine t => { st with dataFile := st.dataFile ++ [t] }
  | st, .writeTimestamp t => { st with timestampFile := some t }

/-- Effects of one 200 response carrying the given records: all appends
first, then the timestamp write when the batch's last record has a usable
createdAt. -/
def plc_batch_effects (data : List (Option ℕ)) : List PlcEffect :=
  data.map .appendLine ++
    match data.getLast? with
    | some (some t) => [.writeTimestamp t]
    | _ => []

def plc_run_effects (st : PlcState) : List PlcEffect → List PlcState
  | [] => []
  | e :: es =>
    let st2 := plc_apply st e
    st2 :: plc_run_effects st2 es

def plc_final (st : PlcState) (es : List PlcEffect) : PlcState :=
  es.foldl plc_apply st

def plc_run_batches (st : PlcState) : List (List (Option ℕ)) → List PlcState
  | [] => []
  | d :: ds =>
    plc_run_effects st (plc_batch_effects d) ++
      plc_run_batches (plc_final st (plc_batch_effects d)) ds

def plc_init : PlcState := ⟨none, []⟩

/-! ## Resume policy

src/firehose_streamer.py __main__ (lines 149-176): the hard-coded debug
last_seq variable is tested by Python truthiness first; otherwise, when any
daily *.json file exists, the seq of the last line of the most recently
modified one is used; otherwise, when the last_seq marker file exists, its
content is used; otherwise the stream starts fresh (no cursor).  The
parameters abstract the three candidate sources: debug is the operator
variable, jsonTail is the tail seq when json files exist (none when no file
exists), marker is the marker file content when that file exists. -/

def py_truthy : Option ℕ → Bool
  | none => false
  | some n => n ≠ 0

def firehose_resume (debug jsonTail marker : Option ℕ) : Option ℕ :=
  if py_truthy debug then debug
  else if jsonTail.isSome then jsonTail
  else marker

/-- PLCDataExporter._read_last_timestamp (lines 49-62): the timestamp marker
file is consulted first and its (possibly empty) content returned whenever
the file exists; only on FileNotFoundError does it fall back to the
createdAt of the data file's last line; a missing or empty data file yields
the empty timestamp.  markerFile: none = file absent, some c = file present
with stripped content c (none inside = empty content).  dataFile: none =
file absent, some lines = its records, each abstracted to its createdAt. -/
def read_last_timestamp (markerFile : Option (Option ℕ))
    (dataFile : Option (List (Option ℕ))) : Option ℕ :=
  match markerFile with
  | some c => c
  | none =>
    match dataFile with
    | some lines =>
      match lines.getLast? with
      | some r => r
      | none => none
    | none => none

/-! ## Concurrency gate (src/moderation/label_streamers.py)

Line 70: semaphore = asyncio.Semaphore(10).  stream_from_endpoint (lines
173-189) runs the whole consumer body inside async with semaphore, so a
consumer is active exactly while it holds one permit.  The gate is modelled
as a transition system on the number of held permits: an acquire succeeds
only below the limit, a release returns one permit. -/

def semaphore_limit : ℕ := 10

inductive SemStep : ℕ → ℕ → Prop
  | acquire (n : ℕ) : n < semaphore_limit → SemStep n (n + 1)
  | release (n : ℕ) : SemStep (n + 1) n

inductive SemReachable : ℕ → Prop
  | init : SemReachable 0
  | step (n m : ℕ) : SemReachable n → SemStep n m → SemReachable m

/-! ## Event-log write failures

src/firehose_streamer.py _get_ops_by_type (lines 87-93): each op's record is
written in a finally block; if the write raises, the handler logs critical
and calls sys.exit(1), so nothing after the failed append is processed.  The
per-op write outcomes of a run are abstracted as booleans (true = append
succeeded). -/

def firehose_writes : List Bool → List Bool × Bool
  | [] => ([], false)
  | true :: r =>
    let p := firehose_writes r
    (true :: p.1, p.2)
  | false :: _ => ([], true)

/-- src/moderation/label_streamers.py on_message_handler (lines 153-171):
the entire body, including the file write, sits in a try whose except logs
the error and returns, so a failed append is swallowed and the subscription
keeps delivering messages. -/
inductive LabelMsgResult
  | wrote
  | loggedError
deriving DecidableEq

def label_handler_step (writeOk : Bool) : LabelMsgResult :=
  if writeOk then .wrote else .loggedError

/-- The per-message results over a whole label stream: every message is
processed whatever happened to earlier appends. -/
def label_stream (msgs : List Bool) : List LabelMsgResult :=
  msgs.map label_handler_step

/-! ## Decode failures inside one commit (src/firehose_streamer.py
_get_ops_by_type, lines 62-95)

Per op: the outer try builds the basic commit_info (uri, seq, action, ...);
if that raises, the op is logged and skipped with no append, and the loop
continues.  Inside, the record payload is decoded from the CAR blocks; if
that raises, the error is logged, and the finally block still appends the
basic commit_info without the payload fields.  On success the merged entry
is appended.  Ops are abstracted by which of the three paths they take. -/

inductive OpSpec
  | basicFail
  | decodeFail (base : ℕ)
  | okRec (base : ℕ) (payload : ℕ)
deriving DecidableEq

inductive LogEntry
  | basicOnly (base : ℕ)
  | withRecord (base : ℕ) (payload : ℕ)
deriving DecidableEq

def op_entry : OpSpec → Option LogEntry
  | .basicFail => none
  | .decodeFail b => some (.basicOnly b)
  | .okRec b p => some (.withRecord b p)

def get_ops_by_type : List OpSpec → List LogEntry
  | [] => []
  | o :: r =>
    match op_entry o with
    | none => get_ops_by_type r
    | some e => e :: get_ops_by_type r

/-! ## Endpoint discovery (src/moderation/label_streamers.py
load_endpoints_from_csv, lines 79-103)

Per CSV row: service_endpoint = row.get("service_endpoint", "").strip()
.rstrip("/"); falsy (empty) values are skipped; when the value lacks "://"
the scheme "https://" is prepended; urlparse splits it and the endpoint is
netloc + path, the substring after the scheme separator up to any query or
fragment (none arise here) with the host's case preserved (urlparse does not
case-fold netloc); rows whose endpoint is empty or starts with "localhost"
are skipped with a warning; the rest are collected into a set (exact string
equality) and returned sorted.  Strings are modelled as Char lists. -/

def scheme_sep : List Char := [':', '/', '/']

def starts_with_l (pat s : List Char) : Bool :=
  s.take pat.length = pat

def has_scheme_sep : List Char → Bool
  | [] => false
  | c :: r => starts_with_l scheme_sep (c :: r) || has_scheme_sep r

/-- The suffix after the first occurrence of "://" (the input always has
one by construction in normalize_endpoint). -/
def after_scheme_sep : List Char → List Char
  | [] => []
  | c :: r =>
    if starts_with_l scheme_sep (c :: r) then r.drop 2
    else after_scheme_sep r

def strip_ws (s : List Char) : List Char :=
  ((s.dropWhile Char.isWhitespace).reverse.dropWhile Char.isWhitespace).reverse

def rstrip_slash (s : List Char) : List Char :=
  (s.reverse.dropWhile (· = '/')).reverse

def https_scheme : List Char := ['h', 't', 't', 'p', 's', ':', '/', '/']

def localhost_l : List Char := ['l', 'o', 'c', 'a', 'l', 'h', 'o', 's', 't']

/-- netloc + path of the urlparse of the cleaned row value (prefixed with
https:// when it carries no scheme separator): the netloc is the part up to
the first slash, the path the rest, so their concatenation is the substring
after "://", case preserved. -/
def normalized_address (raw : List Char) : List Char :=
  let se := rstrip_slash (strip_ws raw)
  let withScheme := if has_scheme_sep se then se else https_scheme ++ se
  let rest := after_scheme_sep withScheme
  rest.takeWhile (· ≠ '/') ++ rest.dropWhile (· ≠ '/')

def normalize_endpoint (raw : List Char) : Option (List Char) :=
  if (rstrip_slash (strip_ws raw)).isEmpty then none
  else if (normalized_address raw).isEmpty ||
      starts_with_l localhost_l (normalized_address raw) then none
  else some (normalized_address raw)

/-- Set semantics of the Python set: keep one copy of each normalized
endpoint (Python additionally returns them sorted; order is irrelevant to
the claims settled here). -/
def dedup_acc (seen : List (List Char)) : List (List Char) → List (List Char)
  | [] => []
  | x :: r => if x ∈ seen then dedup_acc seen r else x :: dedup_acc (x :: seen) r

def load_endpoints_from_csv (rows : List (List Char)) : List (List Char) :=
  dedup_acc [] (rows.filterMap normalize_endpoint)

/-! ## Log-tail recovery (src/moderation/label_streamers.py
get_last_sequence_from_json, lines 118-151)

The file is read backwards in 4096-byte chunks.  Within a chunk the lines
(split on the newline byte) are scanned from the last to the first; a line
on which json.loads succeeds and int(obj.get("seq", 0)) converts returns
that value; a json.JSONDecodeError stores the line in the carry buffer (so
the chunk-leading partial line is prepended to the next chunk); any other
exception (e.g. the decoded value is not an object, or seq does not convert)
is logged and the scan continues without touching the buffer.  A missing
file returns 0, the outer except returns 0 on any I/O error, and falling off
the front of the file returns 0.  Bytes are modelled as naturals (newline =
10) and the combination json.loads + int(obj.get("seq", 0)) as an abstract
per-line decode outcome. -/

inductive DecRes
  | ok (seq : ℤ)
  | jsonErr
  | otherErr
deriving DecidableEq

inductive FileRead
  | missing
  | ioError
  | content (bs : List ℕ)

@[irreducible] def chunk_size : ℕ := 4096

def split_nl : List ℕ → List (List ℕ)
  | [] => [[]]
  | b :: r =>
    match split_nl r with
    | [] => [[]]
    | l :: ls => if b = 10 then [] :: l :: ls else (b :: l) :: ls

/-- One chunk's scan over the lines in reverse order, threading the carry
buffer exactly as the Python loop does: returns the found seq, or the buffer
to carry into the next (earlier) chunk. -/
def scan_lines_rev (decode : List ℕ → DecRes) (buffer : List ℕ) :
    List (List ℕ) → Option ℤ × List ℕ
  | [] => (none, buffer)
  | l :: r =>
    match decode l with
    | .ok n => (some n, buffer)
    | .jsonErr => scan_lines_rev decode l r
    | .otherErr => scan_lines_rev decode buffer r

/-- The while pos > 0 loop, embedded with a fuel argument for structural
recursion: each iteration moves pos to max(0, pos - chunk_size) (Nat
subtraction), reads chunk_size bytes from there, prepends them to the carry
buffer and scans the lines backwards.  Since pos strictly decreases by at
least one per iteration, fuel = the initial pos always suffices; the fuel-0
arm coincides with the pos-0 arm on every sufficiently fuelled call (see
gls_loop_fuel_irrelevant). -/
def gls_loop (decode : List ℕ → DecRes) (content : List ℕ) :
    ℕ → ℕ → List ℕ → ℤ
  | 0, _, _ => 0
  | fuel + 1, pos, buffer =>
    if pos = 0 then 0
    else
      match scan_lines_rev decode buffer
          (split_nl ((content.drop (pos - chunk_size)).take chunk_size
            ++ buffer)).reverse with
      | (some n, _) => n
      | (none, buf2) => gls_loop decode content fuel (pos - chunk_size) buf2

/-- The per-line success extractor: the seq when json.loads plus the int
conversion of the seq field succeed, none on either failure branch. -/
def dec_ok (decode : List ℕ → DecRes) (l : List ℕ) : Option ℤ :=
  match decode l with
  | .ok n => some n
  | _ => none

def get_last_sequence_from_json (decode : List ℕ → DecRes) :
    FileRead → ℤ
  | .missing => 0
  | .ioError => 0
  | .content bs => gls_loop decode bs bs.length bs.length []

/-- The last line of the content (scanning from the end) on which decode
succeeds, with 0 when none does: the value the backward scan is meant to
recover. -/
def last_decoded_seq (decode : List ℕ → DecRes) (content : List ℕ) : ℤ :=
  match (split_nl content).reverse.findSome? (dec_ok decode) with
  | some n => n
  | none => 0

/-- The checkpoint-behind-log invariant for the PLC exporter: whenever the
timestamp file holds a value, a record carrying that createdAt has already
been appended to the data file. -/
def plc_checkpoint_recorded (st : PlcState) : Prop :=
  ∀ t, st.timestampFile = some t → some t ∈ st.dataFile

/-- Decode fixture: every line fails with a JSON decode error. -/
def decode_fixture_fail : List ℕ → DecRes := fun _ => .jsonErr

/-- Decode fixture: the line consisting of the single byte 5 decodes with
seq 7; everything else fails. -/
def decode_fixture_five : List ℕ → DecRes :=
  fun l => if l = [5] then .ok 7 else .jsonErr

/-- The 11 bytes of the string consisting of a left brace, "seq" in double
quotes, a colon, a space, 99 and a right brace: valid JSON whose seq
converts to 99. -/
def junction_line : List ℕ := [123, 34, 115, 101, 113, 34, 58, 32, 57, 57, 125]

/-- Decode fixture matching what json.loads plus int(obj.get("seq", 0)) do
on the byte strings arising from overlap_content: junction_line is the only
valid JSON among them (every other scanned string is an x-run, ends in
unbalanced junk, or is a bare fragment, all json.loads failures). -/
def decode_fixture_junction : List ℕ → DecRes :=
  fun l => if l = junction_line then .ok 99 else .jsonErr

/-- A 4100-byte file (x = byte 120, newline = 10) with three lines, none of
which is valid JSON:
  xxxx9\x7d | xxxx...xxx (4079 bytes) | \x7b"seq": 9xxxx
Reading it backwards in 4096-byte chunks, the second chunk re-reads bytes
0..4095 (overlapping the first chunk, which started at byte 4) and appends
the carried fragment 9\x7d from byte 4, so the scan fabricates the junction
string \x7b"seq": 99\x7d, which is valid JSON with seq 99 although it is
not a line of the file. -/
def overlap_content : List ℕ :=
  List.replicate 4 120 ++ [57, 125, 10] ++ List.replicate 4079 120 ++ [10] ++
    [123, 34, 115, 101, 113, 34, 58, 32, 57] ++ List.replicate 4 120

/-! # Theorems -/

/-- Claim C3 counterexample: at attempt 6 with the admissible jitter draw
3/2, _calculate_backoff returns 450, which exceeds the 300-second cap: the
jitter is applied after the min with the cap, so the returned delay can
exceed the cap, refuting the claim's final conjunct. -/
theorem c3_counterexample :
    ((1 : ℚ) / 2 ≤ 3 / 2 ∧ (3 : ℚ) / 2 ≤ 3 / 2) ∧
      calculate_backoff 6 (3 / 2) = 450 ∧
      ¬ calculate_backoff 6 (3 / 2) ≤ 300 := by
  refine ⟨⟨by norm_num, le_refl _⟩, ?_, ?_⟩ <;>
    norm_num [calculate_backoff, base_delay, max_delay, min_def]

/-- Claim C3 (amended): for every attempt a and jitter j in [1/2, 3/2] the
delay equals the floor of min(5 * 2 ^ a, 300) * j; it is non-negative and
never exceeds 1.5 times the cap (450 seconds), but it is not bounded by the
cap itself. -/
theorem c3_backoff_formula_and_bound (a : ℕ) (j : ℚ)
    (hj1 : 1 / 2 ≤ j) (hj2 : j ≤ 3 / 2) :
    calculate_backoff a j = Int.floor (min ((5 : ℚ) * 2 ^ a) 300 * j) ∧
      0 ≤ calculate_backoff a j ∧ calculate_backoff a j ≤ 450 := by
  have hj0 : (0 : ℚ) ≤ j := le_trans (by norm_num) hj1
  have hmin0 : (0 : ℚ) ≤ min (base_delay * 2 ^ a) max_delay :=
    le_min (by unfold base_delay; positivity) (by norm_num [max_delay])
  have hmin : min (base_delay * 2 ^ a) max_delay ≤ 300 := by
    simp only [max_delay] at *
    exact min_le_right _ _
  refine ⟨by simp [calculate_backoff, base_delay, max_delay], ?_, ?_⟩
  · exact Int.le_floor.mpr (by simpa using mul_nonneg hmin0 hj0)
  · have hprod : min (base_delay * 2 ^ a) max_delay * j ≤ 300 * (3 / 2) :=
      mul_le_mul hmin hj2 hj0 (by norm_num)
    calc calculate_backoff a j
        ≤ Int.floor ((300 : ℚ) * (3 / 2)) := Int.floor_le_floor hprod
      _ = 450 := by norm_num

/-- Claim C3 witness. -/
theorem c3_witness :
    (1 : ℚ) / 2 ≤ 1 ∧ (1 : ℚ) ≤ 3 / 2 ∧
      (calculate_backoff 2 1 = Int.floor (min ((5 : ℚ) * 2 ^ 2) 300 * 1) ∧
        0 ≤ calculate_backoff 2 1 ∧ calculate_backoff 2 1 ≤ 450) :=
  ⟨by norm_num, by norm_num,
    c3_backoff_formula_and_bound 2 1 (by norm_num) (by norm_num)⟩

/-- Claim C4 counterexample: a present Retry-After hint of -5 yields a wait
of -5 in the 429 branch of PLCDataExporter.fetch_all (and the identical
branch of get_plc_data), so the server-supplied wait is not clamped to be
non-negative there. -/
theorem c4_counterexample :
    retry_after_wait (some (-5)) = -5 ∧ retry_after_wait (some (-5)) < 0 := by
  constructor <;> decide

/-- Claim C4 (amended): on a 429 the wait equals the Retry-After header
value exactly as parsed, unclamped, with a fixed default of 30 seconds when
the header is absent (the exponential backoff is not consulted); only the
ratelimit-reset path of get_user_records clamps, sleeping max(0, reset -
now). -/
theorem c4_rate_limit_waits :
    retry_after_wait none = 30 ∧
      (∀ h : ℤ, retry_after_wait (some h) = h) ∧
      (∀ r t : ℤ, 0 ≤ wait_until_reset r t) ∧
      (∀ r t : ℤ, t ≤ r → wait_until_reset r t = r - t) := by
  refine ⟨rfl, fun h => rfl, fun r t => ?_, fun r t h => ?_⟩ <;>
    · unfold wait_until_reset
      split <;> omega

/-- Claim C4 witness. -/
theorem c4_witness :
    retry_after_wait none = 30 ∧ 0 ≤ wait_until_reset 3 7 ∧
      wait_until_reset 10 4 = 10 - 4 :=
  ⟨c4_rate_limit_waits.1, c4_rate_limit_waits.2.2.1 3 7,
    c4_rate_limit_waits.2.2.2 10 4 (by decide)⟩

/-- Claim C5: in every reachable state of the counting admission gate
modelling asyncio.Semaphore(10), the number of simultaneously held permits
(= simultaneously active stream consumers, since stream_from_endpoint runs
entirely inside async with semaphore) is at most 10, for any number of
sources and independent of batch slicing. -/
theorem c5_semaphore_bounds_active (n : ℕ) (h : SemReachable n) :
    n ≤ semaphore_limit := by
  induction h with
  | init => exact Nat.zero_le _
  | step n m hr hs ih =>
    cases hs with
    | acquire _ hlt => omega
    | release _ => omega

/-- Claim C5 witness. -/
theorem c5_witness : 1 ≤ semaphore_limit :=
  c5_semaphore_bounds_active 1
    (SemReachable.step 0 1 SemReachable.init (SemStep.acquire 0 (by decide)))

/-- Claim C6 counterexample: two consecutive failed exchanges can see a
strictly decreasing pair of returned delays, because the uniform jitter is
sampled independently each time: attempt 0 with jitter 3/2 returns 7 while
the next failure at attempt 1 with jitter 1/2 returns 5. -/
theorem c6_counterexample :
    attempt_step .netError 0 = 1 ∧
      calculate_backoff 0 (3 / 2) = 7 ∧
      calculate_backoff 1 (1 / 2) = 5 ∧
      calculate_backoff 1 (1 / 2) < calculate_backoff 0 (3 / 2) := by
  refine ⟨rfl, ?_, ?_, ?_⟩ <;>
    norm_num [calculate_backoff, base_delay, max_delay, min_def,
      Int.floor_eq_iff]

/-- Claim C6 (amended): the pre-jitter delay envelope min(5 * 2 ^ a, 300) is
non-decreasing in the attempt counter and capped at 300, the counter
increments by one on network and HTTP-error exchanges, is left unchanged by
a 429, and resets to 0 on a successful exchange, after which the envelope is
back at the 5-second base; the realized delay after jitter, however, may
decrease between consecutive failures. -/
theorem c6_backoff_monotone_and_reset :
    (∀ a b : ℕ, a ≤ b → unjittered_delay a ≤ unjittered_delay b) ∧
      (∀ a : ℕ, unjittered_delay a ≤ 300) ∧
      unjittered_delay 0 = 5 ∧
      (∀ a : ℕ, attempt_step .netError a = a + 1 ∧
        attempt_step .httpError a = a + 1) ∧
      (∀ a : ℕ, attempt_step .rateLimited a = a) ∧
      (∀ a : ℕ, attempt_step .ok a = 0) := by
  refine ⟨fun a b hab => ?_, fun a => ?_, rfl,
    fun a => ⟨rfl, rfl⟩, fun a => rfl, fun a => rfl⟩
  · exact min_le_min
      (Nat.mul_le_mul_left 5 (Nat.pow_le_pow_right (by norm_num) hab))
      (le_refl 300)
  · exact min_le_right _ _

/-- Claim C6 witness. -/
theorem c6_witness :
    unjittered_delay 2 ≤ unjittered_delay 3 ∧ unjittered_delay 4 ≤ 300 ∧
      attempt_step .ok 9 = 0 :=
  ⟨c6_backoff_monotone_and_reset.1 2 3 (by decide),
    c6_backoff_monotone_and_reset.2.1 4,
    c6_backoff_monotone_and_reset.2.2.2.2.2 9⟩

/-- Claim C7 counterexample: in the label streamer a failed append is caught
by the handler's blanket except, and the very next message of the same
subscription is still consumed and written, so that consumer does not stop
after a failed append. -/
theorem c7_counterexample :
    label_stream [false, true] = [.loggedError, .wrote] ∧
      label_stream [false, true] ≠ [.loggedError] := by
  constructor <;> decide

/-- Claim C7 (amended): the firehose streamer does stop on a local
durability failure: after any run of successful appends, the first failed
append makes _get_ops_by_type call sys.exit(1), so no later record of the
stream is consumed; the label streamer, by contrast, logs the failure and
keeps consuming, processing every subsequent message. -/
theorem c7_write_failure_behaviour :
    (∀ pre post : List Bool, (∀ b ∈ pre, b = true) →
      firehose_writes (pre ++ false :: post) = (pre, true)) ∧
      (∀ msgs : List Bool, (label_stream msgs).length = msgs.length) := by
  constructor
  · intro pre
    induction pre with
    | nil => intro post _; rfl
    | cons b r ih =>
      intro post hall
      have hb : b = true := hall b (by simp)
      subst hb
      have hr := ih post (fun x hx => hall x (by simp [hx]))
      simp [firehose_writes, hr]
  · intro msgs
    simp [label_stream]

/-- Claim C7 witness. -/
theorem c7_witness :
    firehose_writes ([true] ++ false :: [true]) = ([true], true) ∧
      (label_stream [true, false]).length = 2 :=
  ⟨c7_write_failure_behaviour.1 [true] [true] (by decide),
    c7_write_failure_behaviour.2 [true, false]⟩

/-- Claim C8 counterexample: an op whose payload fails to decode is not
skipped: the finally block of _get_ops_by_type still appends the basic
commit info for it, so the event log gains an entry for the malformed
record. -/
theorem c8_counterexample :
    get_ops_by_type [.decodeFail 0] = [.basicOnly 0] ∧
      get_ops_by_type [.decodeFail 0] ≠ [] := by
  constructor <;> decide

/-- Claim C8 (amended): processing is per-op and never aborts the
subscription: the log entries of a commit are exactly the per-op entries
(a basic-info-only entry for a payload-decode failure, nothing for an op
whose basic info cannot be built, the merged entry on success), and
processing a concatenation of ops processes both parts in full, so every
remaining record of the same message and all subsequent messages are still
handled. -/
theorem c8_decode_failure_isolation :
    (∀ ops : List OpSpec, get_ops_by_type ops = ops.filterMap op_entry) ∧
      (∀ xs ys : List OpSpec,
        get_ops_by_type (xs ++ ys) = get_ops_by_type xs ++ get_ops_by_type ys) := by
  have hmap : ∀ ops : List OpSpec, get_ops_by_type ops = ops.filterMap op_entry := by
    intro ops
    induction ops with
    | nil => rfl
    | cons o r ih =>
      cases o <;> simp [get_ops_by_type, op_entry, ih]
  exact ⟨hmap, fun xs ys => by simp [hmap]⟩

/-- Claim C2 counterexample: PLCDataExporter._read_last_timestamp consults
the last_timestamp marker file first: with a marker holding 5 and a data
file whose tail record carries createdAt 9, the resume value is 5, not the
log tail 9, so the log tail does not win over the marker for this source. -/
theorem c2_counterexample :
    read_last_timestamp (some (some 5)) (some [some 9]) = some 5 ∧
      read_last_timestamp (some (some 5)) (some [some 9]) ≠ some 9 := by
  constructor <;> decide

/-- Claim C2 (amended): the firehose streamer follows the claimed priority
order (truthy operator-supplied debug value, then the json log tail whenever
a log file exists, then the marker file, then from-start), and there the log
tail does win over the marker; the PLC exporter inverts (b) and (c): an
existing marker file always wins, and the data-file tail is consulted only
when the marker file is absent. -/
theorem c2_resume_priority :
    (∀ d j m : Option ℕ, py_truthy d = true → firehose_resume d j m = d) ∧
      (∀ j : ℕ, ∀ m : Option ℕ, firehose_resume none (some j) m = some j) ∧
      (∀ m : Option ℕ, firehose_resume none none m = m) ∧
      (∀ c : Option ℕ, ∀ d, read_last_timestamp (some c) d = c) ∧
      (∀ lines : List (Option ℕ), ∀ r : Option ℕ, lines.getLast? = some r →
        read_last_timestamp none (some lines) = r) ∧
      read_last_timestamp none none = none := by
  refine ⟨fun d j m h => ?_, fun j m => rfl, fun m => rfl,
    fun c d => rfl, fun lines r h => ?_, rfl⟩
  · simp [firehose_resume, h]
  · simp [read_last_timestamp, h]

/-- Claim C2 witness. -/
theorem c2_witness :
    firehose_resume (some 7) (some 3) (some 2) = some 7 ∧
      firehose_resume none (some 3) (some 2) = some 3 ∧
      read_last_timestamp none (some [some 9]) = some 9 :=
  ⟨c2_resume_priority.1 (some 7) (some 3) (some 2) (by decide),
    c2_resume_priority.2.1 3 (some 2),
    c2_resume_priority.2.2.2.2.1 [some 9] (some 9) (by decide)⟩

/-- Claim C1 counterexample: running the firehose handler from a fresh start
on commits with sequences 20 and 40 (one record each) reaches the state
where the last_seq checkpoint file holds 40 while the log's last record is
20: the handler persists the checkpoint before appending the same commit's
records, so the persisted checkpoint exceeds the last record in the log. -/
theorem c1_counterexample :
    (⟨some 40, [20], some 40⟩ : FirehoseState) ∈
        fh_run_messages fh_init [(20, 1), (40, 1)] ∧
      checkpoint_leq_log_tail ⟨some 40, [20], some 40⟩ = false := by
  constructor <;> decide

theorem plc_run_effects_append (a b : List PlcEffect) :
    ∀ st : PlcState, plc_run_effects st (a ++ b) =
      plc_run_effects st a ++ plc_run_effects (plc_final st a) b := by
  induction a with
  | nil => intro st; rfl
  | cons e es ih =>
    intro st
    simp [plc_run_effects, plc_final, ih, List.foldl_cons]

theorem plc_final_map_append (l : List (Option ℕ)) :
    ∀ st : PlcState, plc_final st (l.map .appendLine) =
      ⟨st.timestampFile, st.dataFile ++ l⟩ := by
  induction l with
  | nil => intro st; simp [plc_final]
  | cons t r ih =>
    intro st
    simp [plc_final, List.foldl_cons] at *
    rw [ih]
    simp [plc_apply]

theorem plc_run_effects_map_mem (l : List (Option ℕ)) :
    ∀ st st2 : PlcState, st2 ∈ plc_run_effects st (l.map .appendLine) →
      st2.timestampFile = st.timestampFile ∧
        ∃ p, st2.dataFile = st.dataFile ++ p := by
  induction l with
  | nil => intro st st2 h; simp [plc_run_effects] at h
  | cons t r ih =>
    intro st st2 h
    simp only [List.map_cons, plc_run_effects, List.mem_cons] at h
    rcases h with h | h
    · subst h
      exact ⟨rfl, [t], rfl⟩
    · obtain ⟨h1, p, h2⟩ := ih (plc_apply st (.appendLine t)) st2 h
      refine ⟨h1, t :: p, ?_⟩
      simpa [plc_apply] using h2

theorem getLast?_mem_self {α : Type} :
    ∀ (l : List α) (x : α), l.getLast? = some x → x ∈ l := by
  intro l
  induction l with
  | nil => intro x h; simp at h
  | cons a r ih =>
    intro x h
    cases r with
    | nil =>
      simp only [List.getLast?_singleton, Option.some.injEq] at h
      simp [h]
    | cons b r2 =>
      rw [List.getLast?_cons_cons] at h
      exact List.mem_cons_of_mem a (ih x h)

theorem plc_final_append (st : PlcState) (a b : List PlcEffect) :
    plc_final st (a ++ b) = plc_final (plc_final st a) b := by
  simp [plc_final, List.foldl_append]

theorem plc_batch_preserves_inv (data : List (Option ℕ)) (st : PlcState)
    (hinv : plc_checkpoint_recorded st) :
    (∀ st2 ∈ plc_run_effects st (plc_batch_effects data),
      plc_checkpoint_recorded st2) ∧
      plc_checkpoint_recorded (plc_final st (plc_batch_effects data)) := by
  have hmem : ∀ st2 ∈ plc_run_effects st (data.map .appendLine),
      plc_checkpoint_recorded st2 := by
    intro st2 h2
    obtain ⟨h1, p, h2⟩ := plc_run_effects_map_mem data st st2 h2
    intro t ht
    rw [h1] at ht
    rw [h2]
    exact List.mem_append_left p (hinv t ht)
  have hfinmap : plc_final st (data.map .appendLine) =
      ⟨st.timestampFile, st.dataFile ++ data⟩ := plc_final_map_append data st
  have hfininv : plc_checkpoint_recorded ⟨st.timestampFile, st.dataFile ++ data⟩ := by
    intro t ht
    exact List.mem_append_left data (hinv t ht)
  unfold plc_batch_effects
  rw [plc_run_effects_append, plc_final_append, hfinmap]
  match hlast : data.getLast? with
  | none =>
    constructor
    · intro st2 h2
      rw [List.mem_append] at h2
      rcases h2 with h2 | h2
      · exact hmem st2 h2
      · simp [plc_run_effects] at h2
    · simpa [plc_final] using hfininv
  | some none =>
    constructor
    · intro st2 h2
      rw [List.mem_append] at h2
      rcases h2 with h2 | h2
      · exact hmem st2 h2
      · simp [plc_run_effects] at h2
    · simpa [plc_final] using hfininv
  | some (some t0) =>
    have hlastmem : some t0 ∈ data := getLast?_mem_self data (some t0) hlast
    have hwinv : plc_checkpoint_recorded
        ⟨some t0, st.dataFile ++ data⟩ := by
      intro t ht
      simp only [Option.some.injEq] at ht
      subst ht
      exact List.mem_append_right _ hlastmem
    constructor
    · intro st2 h2
      rw [List.mem_append] at h2
      rcases h2 with h2 | h2
      · exact hmem st2 h2
      · simp only [plc_run_effects, plc_apply, List.mem_cons,
          List.not_mem_nil, or_false] at h2
        subst h2
        exact hwinv
    · simpa [plc_final, plc_apply] using hwinv

theorem plc_run_batches_inv :
    ∀ (batches : List (List (Option ℕ))) (st : PlcState),
      plc_checkpoint_recorded st →
      ∀ st2 ∈ plc_run_batches st batches, plc_checkpoint_recorded st2 := by
  intro batches
  induction batches with
  | nil => intro st _ st2 h2; simp [plc_run_batches] at h2
  | cons d ds ih =>
    intro st hinv st2 h2
    simp only [plc_run_batches, List.mem_append] at h2
    rcases h2 with h2 | h2
    · exact (plc_batch_preserves_inv d st hinv).1 st2 h2
    · exact ih (plc_final st (plc_batch_effects d))
        (plc_batch_preserves_inv d st hinv).2 st2 h2

/-- Claim C1 (amended): in the PLC exporter every write of the
last_timestamp checkpoint happens only after the corresponding record has
been appended: at every state reached while processing any sequence of
export batches from a fresh start, whenever the timestamp file holds a
value, a record carrying that createdAt is already present in the data
file.  The firehose streamer violates the claimed discipline (its
checkpoint write precedes the same commit's appends), and both checkpoint
writes are direct overwrites, not write-to-temp-then-rename. -/
theorem c1_plc_checkpoint_after_append
    (batches : List (List (Option ℕ))) (st : PlcState)
    (hst : st ∈ plc_run_batches plc_init batches) :
    ∀ t, st.timestampFile = some t → some t ∈ st.dataFile :=
  plc_run_batches_inv batches plc_init
    (by intro t ht; simp [plc_init] at ht) st hst

/-- Claim C1 witness. -/
theorem c1_witness :
    (⟨some 3, [some 3]⟩ : PlcState) ∈ plc_run_batches plc_init [[some 3]] ∧
      some 3 ∈ (⟨some 3, [some 3]⟩ : PlcState).dataFile :=
  ⟨by decide, c1_plc_checkpoint_after_append [[some 3]] ⟨some 3, [some 3]⟩
    (by decide) 3 rfl⟩

/-- Claim C9 counterexample: two rows whose addresses differ only in the
case of the host normalize to two distinct sources (urlparse preserves the
netloc's case, so there is no case-normalization), and a loopback address
given by IP is accepted, since only names starting with "localhost" are
rejected. -/
theorem c9_counterexample :
    (load_endpoints_from_csv ["Example.com".data, "example.com".data]).length = 2 ∧
      normalize_endpoint "127.0.0.1".data ≠ none := by
  constructor <;> decide

theorem dedup_acc_mem :
    ∀ (l seen : List (List Char)) (x : List Char),
      x ∈ dedup_acc seen l ↔ x ∈ l ∧ x ∉ seen := by
  intro l
  induction l with
  | nil => intro seen x; simp [dedup_acc]
  | cons y r ih =>
    intro seen x
    by_cases hy : y ∈ seen
    · simp only [dedup_acc, if_pos hy, ih, List.mem_cons]
      constructor
      · rintro ⟨h1, h2⟩
        exact ⟨Or.inr h1, h2⟩
      · rintro ⟨h1 | h1, h2⟩
        · exact absurd (h1 ▸ hy) h2
        · exact ⟨h1, h2⟩
    · simp only [dedup_acc, if_neg hy, List.mem_cons, ih]
      constructor
      · rintro (h | ⟨h1, h2⟩)
        · subst h
          exact ⟨Or.inl rfl, hy⟩
        · exact ⟨Or.inr h1, fun hs => h2 (Or.inr hs)⟩
      · rintro ⟨h1 | h1, h2⟩
        · exact Or.inl h1
        · by_cases hxy : x = y
          · exact Or.inl hxy
          · exact Or.inr ⟨h1, fun h => h.elim hxy h2⟩

theorem dedup_acc_nodup :
    ∀ (l seen : List (List Char)), (dedup_acc seen l).Nodup := by
  intro l
  induction l with
  | nil => intro seen; simp [dedup_acc]
  | cons y r ih =>
    intro seen
    by_cases hy : y ∈ seen
    · simpa [dedup_acc, if_pos hy] using ih seen
    · rw [dedup_acc, if_neg hy]
      refine List.nodup_cons.mpr ⟨fun hmem => ?_, ih (y :: seen)⟩
      rw [dedup_acc_mem] at hmem
      exact hmem.2 (List.mem_cons_self y seen)

/-- Claim C9 (amended): the accepted source identity is the address after
scheme stripping and trailing-slash removal with the host's case preserved;
two rows with exactly equal normalized addresses yield one source (the
returned list is duplicate-free and its members are exactly the normalized
rows); and a row is rejected exactly when its normalized address is empty or
starts with the literal name "localhost" (loopback IPs are accepted). -/
theorem c9_endpoint_normalization :
    (∀ rows : List (List Char), (load_endpoints_from_csv rows).Nodup) ∧
      (∀ (rows : List (List Char)) (x : List Char),
        x ∈ load_endpoints_from_csv rows ↔
          x ∈ rows.filterMap normalize_endpoint) ∧
      (∀ (raw e : List Char), normalize_endpoint raw = some e →
        e ≠ [] ∧ starts_with_l localhost_l e = false) := by
  refine ⟨fun rows => dedup_acc_nodup _ [], fun rows x => ?_, fun raw e h => ?_⟩
  · rw [load_endpoints_from_csv, dedup_acc_mem]
    simp
  · unfold normalize_endpoint at h
    split at h
    · exact absurd h (by simp)
    · split at h
      · exact absurd h (by simp)
      · rename_i hcond
        rw [Option.some.injEq] at h
        subst h
        rw [Bool.or_eq_true, not_or] at hcond
        obtain ⟨h1, h2⟩ := hcond
        constructor
        · intro he
          exact h1 (by simp [he])
        · exact Bool.eq_false_iff.mpr h2

/-- Claim C9 witness. -/
theorem c9_witness :
    "example.com".data ≠ [] ∧
      starts_with_l localhost_l "example.com".data = false :=
  c9_endpoint_normalization.2.2 "example.com".data "example.com".data
    (by decide)


theorem scan_lines_rev_fst (decode : List ℕ → DecRes) :
    ∀ (ls : List (List ℕ)) (buffer : List ℕ),
      (scan_lines_rev decode buffer ls).1 = ls.findSome? (dec_ok decode) := by
  intro ls
  induction ls with
  | nil => intro buffer; simp [scan_lines_rev]
  | cons l r ih =>
    intro buffer
    rw [scan_lines_rev, List.findSome?_cons]
    unfold dec_ok
    match decode l with
    | .ok n => rfl
    | .jsonErr => exact ih l
    | .otherErr => exact ih buffer

theorem findSome?_eq_none_of_all_none {α β : Type} (f : α → Option β) :
    ∀ ls : List α, (∀ x, f x = none) → ls.findSome? f = none := by
  intro ls h
  induction ls with
  | nil => simp
  | cons l r ih => rw [List.findSome?_cons, h l]; exact ih

theorem chunk_size_eq : chunk_size = 4096 := by
  unfold chunk_size
  rfl

theorem chunk_size_pos : 0 < chunk_size := by
  rw [chunk_size_eq]
  norm_num

theorem gls_loop_pos_zero (decode : List ℕ → DecRes) (content : List ℕ) :
    ∀ (fuel : ℕ) (buffer : List ℕ),
      gls_loop decode content fuel 0 buffer = 0 := by
  intro fuel buffer
  cases fuel with
  | zero => rfl
  | succ f => simp [gls_loop]

theorem gls_loop_fuel_irrelevant (decode : List ℕ → DecRes)
    (content : List ℕ) :
    ∀ (f1 f2 pos : ℕ) (buffer : List ℕ), pos ≤ f1 → pos ≤ f2 →
      gls_loop decode content f1 pos buffer =
        gls_loop decode content f2 pos buffer := by
  intro f1
  induction f1 with
  | zero =>
    intro f2 pos buffer h1 _
    have : pos = 0 := Nat.le_zero.mp h1
    subst this
    rw [gls_loop_pos_zero, gls_loop_pos_zero]
  | succ g1 ih =>
    intro f2 pos buffer h1 h2
    by_cases hpos : pos = 0
    · subst hpos
      rw [gls_loop_pos_zero, gls_loop_pos_zero]
    · match f2 with
      | 0 => exact absurd (Nat.le_zero.mp h2) hpos
      | g2 + 1 =>
        rw [gls_loop, gls_loop, if_neg hpos, if_neg hpos]
        rcases hsc : scan_lines_rev decode buffer
            (split_nl ((content.drop (pos - chunk_size)).take chunk_size
              ++ buffer)).reverse with ⟨r1, r2⟩
        cases r1 with
        | some n => rfl
        | none =>
          have hle : pos - chunk_size ≤ g1 := by
            have := chunk_size_pos
            omega
          have hle2 : pos - chunk_size ≤ g2 := by
            have := chunk_size_pos
            omega
          exact ih g2 (pos - chunk_size) r2 hle hle2

theorem gls_loop_all_fail (decode : List ℕ → DecRes) (content : List ℕ)
    (hfail : ∀ l n, decode l ≠ .ok n) :
    ∀ fuel pos buffer, gls_loop decode content fuel pos buffer = 0 := by
  have hnone : ∀ l, dec_ok decode l = none := by
    intro l
    unfold dec_ok
    match hd : decode l with
    | .ok n => exact absurd hd (hfail l n)
    | .jsonErr => rfl
    | .otherErr => rfl
  intro fuel
  induction fuel with
  | zero => intro pos buffer; rfl
  | succ f ih =>
    intro pos buffer
    rw [gls_loop]
    by_cases hpos : pos = 0
    · rw [if_pos hpos]
    · rw [if_neg hpos]
      have hfst := scan_lines_rev_fst decode
        (split_nl ((content.drop (pos - chunk_size)).take chunk_size
          ++ buffer)).reverse buffer
      rw [findSome?_eq_none_of_all_none _ _ hnone] at hfst
      rcases hsc : scan_lines_rev decode buffer
          (split_nl ((content.drop (pos - chunk_size)).take chunk_size
            ++ buffer)).reverse with ⟨r1, r2⟩
      rw [hsc] at hfst
      simp only at hfst
      subst hfst
      exact ih (pos - chunk_size) r2

theorem gls_single_chunk (decode : List ℕ → DecRes) (c : List ℕ)
    (hempty : ∀ n, decode [] ≠ .ok n) (hlen : c.length ≤ chunk_size) :
    gls_loop decode c c.length c.length [] = last_decoded_seq decode c := by
  cases hc : c.length with
  | zero =>
    have hnil : c = [] := List.length_eq_zero.mp hc
    subst hnil
    have h0 : dec_ok decode [] = none := by
      unfold dec_ok
      match hd : decode [] with
      | .ok n => exact absurd hd (hempty n)
      | .jsonErr => rfl
      | .otherErr => rfl
    simp [last_decoded_seq, split_nl, h0, gls_loop]
  | succ m =>
    have hlen2 : m + 1 ≤ chunk_size := by rw [← hc]; exact hlen
    have hlen3 : c.length ≤ chunk_size := by rw [hc]; exact hlen2
    conv_lhs => rw [gls_loop]
    rw [if_neg (Nat.succ_ne_zero m)]
    have h0 : m + 1 - chunk_size = 0 := Nat.sub_eq_zero_of_le hlen2
    rw [h0, List.drop_zero, List.take_of_length_le hlen3,
      List.append_nil]
    rcases hsc : scan_lines_rev decode [] (split_nl c).reverse with ⟨r1, r2⟩
    have hfst := scan_lines_rev_fst decode (split_nl c).reverse []
    rw [hsc] at hfst
    simp only at hfst
    unfold last_decoded_seq
    rw [← hfst]
    cases r1 with
    | some n => rfl
    | none =>
      show gls_loop decode c m 0 r2 = 0
      exact gls_loop_pos_zero decode c m r2

/-- Claim C10 (amended): get_last_sequence_from_json is total and never
propagates an exception: it returns 0 for a missing file, 0 when the outer
except catches an I/O error, 0 for any content (of any size) on which no
string it scans decodes with a usable seq, and, for files of at most one
chunk (4096 bytes), exactly the seq of the last line on which json.loads
plus the int conversion of the seq field succeed (a partial or malformed
trailing line is skipped and the scan keeps moving backwards), defaulting
to 0 when no such line exists.  For larger files the last-decodable-line
characterization fails: the overlapping chunk re-read can fabricate and
accept a junction string that is not a line of the file (see the
counterexample). -/
theorem c10_tail_scan_safe :
    (∀ decode, get_last_sequence_from_json decode .missing = 0) ∧
      (∀ decode, get_last_sequence_from_json decode .ioError = 0) ∧
      (∀ (decode : List ℕ → DecRes) (c : List ℕ),
        (∀ l n, decode l ≠ .ok n) →
        get_last_sequence_from_json decode (.content c) = 0) ∧
      (∀ (decode : List ℕ → DecRes) (c : List ℕ),
        (∀ n, decode [] ≠ .ok n) → c.length ≤ chunk_size →
        get_last_sequence_from_json decode (.content c) =
          last_decoded_seq decode c) := by
  refine ⟨fun decode => rfl, fun decode => rfl, fun decode c hfail => ?_,
    fun decode c hempty hlen => ?_⟩
  · exact gls_loop_all_fail decode c hfail c.length c.length []
  · exact gls_single_chunk decode c hempty hlen

/-- Claim C10 witness. -/
theorem c10_witness :
    get_last_sequence_from_json decode_fixture_fail .missing = 0 ∧
      get_last_sequence_from_json decode_fixture_fail .ioError = 0 ∧
      get_last_sequence_from_json decode_fixture_fail (.content [1, 10, 2]) = 0 ∧
      get_last_sequence_from_json decode_fixture_five (.content [5]) =
        last_decoded_seq decode_fixture_five [5] :=
  ⟨c10_tail_scan_safe.1 decode_fixture_fail,
    c10_tail_scan_safe.2.1 decode_fixture_fail,
    c10_tail_scan_safe.2.2.1 decode_fixture_fail [1, 10, 2]
      (fun l n h => by simp [decode_fixture_fail] at h),
    c10_tail_scan_safe.2.2.2 decode_fixture_five [5]
      (fun n h => by simp [decode_fixture_five] at h)
      (by rw [chunk_size_eq]; norm_num)⟩

theorem split_nl_ne_nil : ∀ w : List ℕ, split_nl w ≠ [] := by
  intro w
  cases w with
  | nil => simp [split_nl]
  | cons b r =>
    cases hsr : split_nl r with
    | nil => simp [split_nl, hsr]
    | cons l ls =>
      simp only [split_nl, hsr]
      split <;> simp

theorem split_nl_no_nl : ∀ w : List ℕ, (∀ x ∈ w, x ≠ 10) → split_nl w = [w] := by
  intro w
  induction w with
  | nil => intro _; rfl
  | cons b r ih =>
    intro h
    have hb : b ≠ 10 := h b (by simp)
    have hr := ih (fun x hx => h x (by simp [hx]))
    simp [split_nl, hr, hb]

theorem split_nl_cons_nl (w : List ℕ) : split_nl (10 :: w) = [] :: split_nl w := by
  cases hsw : split_nl w with
  | nil => exact absurd hsw (split_nl_ne_nil w)
  | cons l ls => simp [split_nl, hsw]

theorem split_nl_append_no_nl :
    ∀ (xs ys : List ℕ), (∀ x ∈ xs, x ≠ 10) →
      ∀ l ls, split_nl ys = l :: ls → split_nl (xs ++ ys) = (xs ++ l) :: ls := by
  intro xs
  induction xs with
  | nil => intro ys _ l ls h; simpa using h
  | cons b r ih =>
    intro ys h l ls hys
    have hb : b ≠ 10 := h b (by simp)
    have hr := ih ys (fun x hx => h x (by simp [hx])) l ls hys
    simp [split_nl, hr, hb]

theorem replicate_no_nl (n : ℕ) :
    ∀ x ∈ List.replicate n (120 : ℕ), x ≠ 10 := by
  intro x hx
  rw [List.eq_of_mem_replicate hx]
  norm_num

theorem split_nl_overlap_mid (X : List ℕ) (hX : ∀ x ∈ X, x ≠ 10) :
    split_nl ([57, 125, 10] ++ (List.replicate 4079 120 ++
        ([10] ++ ([123, 34, 115, 101, 113, 34, 58, 32, 57] ++ X)))) =
      [[57, 125], List.replicate 4079 120,
        [123, 34, 115, 101, 113, 34, 58, 32, 57] ++ X] := by
  have hCX : split_nl ([123, 34, 115, 101, 113, 34, 58, 32, 57] ++ X) =
      [[123, 34, 115, 101, 113, 34, 58, 32, 57] ++ X] := by
    apply split_nl_no_nl
    intro x hx
    rcases List.mem_append.mp hx with h | h
    · simp only [List.mem_cons, List.not_mem_nil, or_false] at h
      rcases h with rfl | rfl | rfl | rfl | rfl | rfl | rfl | rfl | rfl <;>
        norm_num
    · exact hX x h
  have h10CX : split_nl (10 :: ([123, 34, 115, 101, 113, 34, 58, 32, 57] ++ X)) =
      [] :: [[123, 34, 115, 101, 113, 34, 58, 32, 57] ++ X] := by
    rw [split_nl_cons_nl, hCX]
  have hB := split_nl_append_no_nl (List.replicate 4079 120)
    (10 :: ([123, 34, 115, 101, 113, 34, 58, 32, 57] ++ X))
    (replicate_no_nl 4079) _ _ h10CX
  rw [List.append_nil] at hB
  have h10B : split_nl (10 :: (List.replicate 4079 120 ++
      (10 :: ([123, 34, 115, 101, 113, 34, 58, 32, 57] ++ X)))) =
      [] :: List.replicate 4079 120 ::
        [[123, 34, 115, 101, 113, 34, 58, 32, 57] ++ X] := by
    rw [split_nl_cons_nl, hB]
  have hfin := split_nl_append_no_nl [57, 125]
    (10 :: (List.replicate 4079 120 ++
      (10 :: ([123, 34, 115, 101, 113, 34, 58, 32, 57] ++ X))))
    (by decide) _ _ h10B
  rw [List.append_nil] at hfin
  rw [show ([57, 125, 10] : List ℕ) = [57, 125] ++ [10] from rfl,
    List.append_assoc, List.singleton_append, List.singleton_append]
  exact hfin

theorem split_nl_overlap_full (X : List ℕ) (hX : ∀ x ∈ X, x ≠ 10) :
    split_nl (List.replicate 4 120 ++ ([57, 125, 10] ++
        (List.replicate 4079 120 ++
          ([10] ++ ([123, 34, 115, 101, 113, 34, 58, 32, 57] ++ X))))) =
      [List.replicate 4 120 ++ [57, 125], List.replicate 4079 120,
        [123, 34, 115, 101, 113, 34, 58, 32, 57] ++ X] :=
  split_nl_append_no_nl (List.replicate 4 120) _
    (replicate_no_nl 4) _ _ (split_nl_overlap_mid X hX)

theorem gls_loop_step (decode : List ℕ → DecRes) (content : List ℕ)
    (fuel pos : ℕ) (buffer : List ℕ) (hf : fuel ≠ 0) (hp : pos ≠ 0) :
    gls_loop decode content fuel pos buffer =
      match scan_lines_rev decode buffer
          (split_nl ((content.drop (pos - chunk_size)).take chunk_size
            ++ buffer)).reverse with
      | (some n, _) => n
      | (none, buf2) => gls_loop decode content (fuel - 1) (pos - chunk_size) buf2 := by
  match fuel, hf with
  | f + 1, _ =>
    rw [gls_loop, if_neg hp]
    simp

theorem overlap_drop4 : overlap_content.drop 4 =
    [57, 125, 10] ++ (List.replicate 4079 120 ++
      ([10] ++ ([123, 34, 115, 101, 113, 34, 58, 32, 57] ++
        List.replicate 4 120))) := by
  unfold overlap_content
  simp only [List.append_assoc]
  have h := List.drop_left (List.replicate 4 (120 : ℕ))
    ([57, 125, 10] ++ (List.replicate 4079 120 ++
      ([10] ++ ([123, 34, 115, 101, 113, 34, 58, 32, 57] ++
        List.replicate 4 120))))
  rw [List.length_replicate] at h
  rw [h]

theorem overlap_take4096 : overlap_content.take 4096 =
    List.replicate 4 120 ++ ([57, 125, 10] ++
      (List.replicate 4079 120 ++
        ([10] ++ [123, 34, 115, 101, 113, 34, 58, 32, 57]))) := by
  have hre : overlap_content =
      (List.replicate 4 120 ++ ([57, 125, 10] ++
        (List.replicate 4079 120 ++
          ([10] ++ [123, 34, 115, 101, 113, 34, 58, 32, 57])))) ++
        List.replicate 4 120 := by
    unfold overlap_content
    simp only [List.append_assoc]
  have h := List.take_left
    (List.replicate 4 (120 : ℕ) ++ ([57, 125, 10] ++
      (List.replicate 4079 120 ++
        ([10] ++ [123, 34, 115, 101, 113, 34, 58, 32, 57]))))
    (List.replicate 4 (120 : ℕ))
  have hlen : (List.replicate 4 (120 : ℕ) ++ ([57, 125, 10] ++
      (List.replicate 4079 120 ++
        ([10] ++ [123, 34, 115, 101, 113, 34, 58, 32, 57])))).length = 4096 := by
    simp only [List.length_append, List.length_replicate, List.length_cons,
      List.length_nil]
  rw [hlen] at h
  rw [hre]
  exact h

theorem dec_junk_tail :
    decode_fixture_junction ([123, 34, 115, 101, 113, 34, 58, 32, 57] ++
      List.replicate 4 120) = .jsonErr := by
  decide

theorem dec_xrun :
    decode_fixture_junction (List.replicate 4079 120) = .jsonErr := by
  decide

theorem dec_frag : decode_fixture_junction [57, 125] = .jsonErr := by
  decide

theorem dec_first_line :
    decode_fixture_junction (List.replicate 4 120 ++ [57, 125]) = .jsonErr := by
  decide

theorem dec_junction :
    decode_fixture_junction ([123, 34, 115, 101, 113, 34, 58, 32, 57] ++
      [57, 125]) = .ok 99 := by
  decide

theorem reverse_three (a b c : List ℕ) :
    ([a, b, c] : List (List ℕ)).reverse = [c, b, a] := rfl

/-- Claim C10 counterexample: on the 4100-byte overlap_content none of the
file's three lines is valid JSON, so the claim prescribes a return value of
0; the code returns 99.  The backward scan's second chunk re-reads bytes
0..4095 (overlapping the first chunk, which started at byte 4) and appends
the carried fragment, fabricating the junction string (left brace, "seq",
colon, space, 99, right brace) that json.loads accepts with seq 99 although
it is not a line of the file.  decode_fixture_junction reproduces json.loads
plus int(obj.get("seq", 0)) on every byte string this run scans: the
junction string is the only valid JSON among them. -/
theorem c10_counterexample :
    get_last_sequence_from_json decode_fixture_junction
        (.content overlap_content) = 99 ∧
      last_decoded_seq decode_fixture_junction overlap_content = 0 ∧
      (99 : ℤ) ≠ 0 := by
  have hlen : overlap_content.length = 4100 := by
    unfold overlap_content
    simp only [List.length_append, List.length_replicate, List.length_cons,
      List.length_nil]
  have e1 : (4100 : ℕ) - chunk_size = 4 := by
    rw [chunk_size_eq]
  have e2 : (4 : ℕ) - chunk_size = 0 := by
    rw [chunk_size_eq]
  refine ⟨?_, ?_, by norm_num⟩
  · show gls_loop decode_fixture_junction overlap_content
      overlap_content.length overlap_content.length [] = 99
    rw [hlen]
    rw [gls_loop_step _ _ 4100 4100 [] (by norm_num) (by norm_num)]
    rw [e1, List.append_nil, overlap_drop4]
    rw [chunk_size_eq]
    rw [List.take_of_length_le (by
      simp only [List.length_append, List.length_replicate, List.length_cons,
        List.length_nil]
      omega)]
    rw [split_nl_overlap_mid (List.replicate 4 120) (replicate_no_nl 4)]
    rw [reverse_three]
    have hscan1 : scan_lines_rev decode_fixture_junction []
        [[123, 34, 115, 101, 113, 34, 58, 32, 57] ++ List.replicate 4 120,
          List.replicate 4079 120, [57, 125]] = (none, [57, 125]) := by
      simp only [scan_lines_rev, dec_junk_tail, dec_xrun, dec_frag]
    rw [hscan1]
    show gls_loop decode_fixture_junction overlap_content (4100 - 1) 4
      [57, 125] = 99
    rw [gls_loop_step _ _ (4100 - 1) 4 [57, 125] (by norm_num) (by norm_num)]
    rw [e2, List.drop_zero]
    rw [chunk_size_eq]
    rw [overlap_take4096]
    have hre2 : List.replicate 4 (120 : ℕ) ++ ([57, 125, 10] ++
        (List.replicate 4079 120 ++
          ([10] ++ [123, 34, 115, 101, 113, 34, 58, 32, 57]))) ++ [57, 125] =
        List.replicate 4 120 ++ ([57, 125, 10] ++
          (List.replicate 4079 120 ++
            ([10] ++ ([123, 34, 115, 101, 113, 34, 58, 32, 57] ++
              [57, 125])))) := by
      simp only [List.append_assoc]
    rw [hre2]
    rw [split_nl_overlap_full [57, 125] (by decide)]
    rw [reverse_three]
    have hscan2 : scan_lines_rev decode_fixture_junction [57, 125]
        [[123, 34, 115, 101, 113, 34, 58, 32, 57] ++ [57, 125],
          List.replicate 4079 120, List.replicate 4 120 ++ [57, 125]] =
        (some 99, [57, 125]) := by
      simp only [scan_lines_rev, dec_junction]
    rw [hscan2]
  · unfold last_decoded_seq
    have hoc : overlap_content = List.replicate 4 120 ++ ([57, 125, 10] ++
        (List.replicate 4079 120 ++
          ([10] ++ ([123, 34, 115, 101, 113, 34, 58, 32, 57] ++
            List.replicate 4 120)))) := by
      unfold overlap_content
      simp only [List.append_assoc]
    rw [hoc, split_nl_overlap_full (List.replicate 4 120) (replicate_no_nl 4)]
    rw [reverse_three]
    simp only [List.findSome?_cons, dec_ok, dec_junk_tail, dec_xrun,
      dec_first_line, List.findSome?_nil]
